import Mathlib

/-
Verification of the reference-resolution and bundling core of the
libopenapi repository (packages `bundler`, `index`, `datamodel/low/base`),
as a shallow embedding in Lean 4.

The embedding models yaml.Node pointers as natural-number ids into an
explicit heap, so that the in-place mutations performed by the bundler
(`sequenced.Node.Content = mappedReference.Node.Content`) and sharing of
child lists are observable.  Pure tree walks (the discriminator collection
pass) are modelled on an inductive node tree.
-/

namespace LibO

/-! ## Node heap model (yaml.Node pointers as ids) -/

/-- A yaml node as stored in the heap: its scalar value and the ids of its
children (`Content`).  Pointer identity of the Go `*yaml.Node` is the
position in the heap. -/
structure YamlNode where
  value : String := ""
  content : List Nat := []
deriving DecidableEq, Repr

/-- The heap of yaml nodes; a Go pointer is an index into this list. -/
abbrev Heap := List YamlNode

/-- Dereference a node id (out-of-range reads yield the zero node, which
never happens on well-formed inputs). -/
def getNode (h : Heap) (i : Nat) : YamlNode := h.getD i { value := "", content := [] }

/-- The in-place mutation `node.Content = newContent` performed by the
bundler: node `i` keeps its identity and value, its child list is replaced. -/
def setNodeContent (h : Heap) (i : Nat) (c : List Nat) : Heap :=
  h.set i { getNode h i with content := c }

/-! ## Inductive yaml tree (for the pure discriminator-collection walk) -/

/-- A parsed yaml tree node, as walked by `collectDiscriminatorMappingValues`
(bundler.go).  Mirrors yaml.Kind: ScalarNode, MappingNode, SequenceNode,
DocumentNode.  A mapping's children alternate key, value. -/
inductive YNode where
  | scalar (value : String)
  | mapping (children : List YNode)
  | sequence (children : List YNode)
  | document (children : List YNode)

/-- The `.Value` field of a yaml node: the scalar text, empty for
non-scalar kinds. -/
def keyVal : YNode → String
  | .scalar s => s
  | _ => ""

/-- The `.Content` field of a yaml node. -/
def childrenOf : YNode → List YNode
  | .scalar _ => []
  | .mapping cs => cs
  | .sequence cs => cs
  | .document cs => cs

/-- Whether the node is a ScalarNode. -/
def isScalar : YNode → Bool
  | .scalar _ => true
  | _ => false

/-- The `for i := 0; i < len(content); i += 2` iteration over a mapping's
content as (key, value) pairs. -/
def pairsOf : List YNode → List (YNode × YNode)
  | k :: v :: rest => (k, v) :: pairsOf rest
  | _ => []

/-- The value nodes of a mapping's content, in order. -/
def valuesOf : List YNode → List YNode
  | _ :: v :: rest => v :: valuesOf rest
  | _ => []

/-- Result of `idx.SearchIndexForReference(ref)`: the found reference's
`Definition` and the owning index's `GetSpecAbsolutePath()`. -/
structure SearchHit where
  definition : String
  idxPath : String
deriving DecidableEq, Repr

/-- The environment for `SearchIndexForReference`, as a finite table from
ref strings to hits; a missing entry models the nil result. -/
abbrev SearchTable := List (String × SearchHit)

/-- Model of `idx.SearchIndexForReference(refValue)` over the table. -/
def searchRef (t : SearchTable) (s : String) : Option SearchHit :=
  List.lookup s t

/-- Model of `walkDiscriminatorMapping` (bundler.go): for every `mapping` key of a
discriminator node, resolve each mapping value and return the pinned
absolute URIs (`specAbsolutePath + Definition`). -/
def walkDiscriminatorMapping (t : SearchTable) (discriminatorNode : YNode) : List String :=
  match discriminatorNode with
  | .mapping cs =>
    (pairsOf cs).foldr
      (fun kv acc =>
        (if keyVal kv.1 = "mapping" then
          (pairsOf (childrenOf kv.2)).foldr
            (fun mkv acc2 =>
              (match searchRef t (keyVal mkv.2) with
               | some hit => [hit.idxPath ++ hit.definition]
               | none => []) ++ acc2) []
        else []) ++ acc) []
  | _ => []

/-- Model of `walkUnionRefs` (bundler.go): for every mapping item of a oneOf/anyOf
sequence, resolve its `$ref` scalar values and return the pinned URIs. -/
def walkUnionRefs (t : SearchTable) (seq : Option YNode) : List String :=
  match seq with
  | some (.sequence items) =>
    items.foldr
      (fun item acc =>
        (match item with
         | .mapping cs =>
           (pairsOf cs).foldr
             (fun kv acc2 =>
               (if keyVal kv.1 = "$ref" ∧ isScalar kv.2 = true then
                 match searchRef t (keyVal kv.2) with
                 | some hit => [hit.idxPath ++ hit.definition]
                 | none => []
               else []) ++ acc2) []
         | _ => []) ++ acc) []
  | _ => []

/-- The loop of `collectDiscriminatorMappingValues` that records the last
`discriminator`, `oneOf` and `anyOf` values seen among a mapping's pairs. -/
def findDOAAux (acc : Option YNode × Option YNode × Option YNode) :
    List (YNode × YNode) → Option YNode × Option YNode × Option YNode
  | [] => acc
  | kv :: rest =>
    findDOAAux
      (match keyVal kv.1 with
       | "discriminator" => (some kv.2, acc.2.1, acc.2.2)
       | "oneOf" => (acc.1, some kv.2, acc.2.2)
       | "anyOf" => (acc.1, acc.2.1, some kv.2)
       | _ => acc) rest

/-- The discriminator, oneOf and anyOf values of a mapping's content. -/
def findDOA (cs : List YNode) : Option YNode × Option YNode × Option YNode :=
  findDOAAux (none, none, none) (pairsOf cs)

/-- The `if discriminator != nil` tail of `collectDiscriminatorMappingValues`:
pin the discriminator mapping targets and the oneOf/anyOf union refs. -/
def discContribution (t : SearchTable) (cs : List YNode) : List String :=
  match findDOA cs with
  | (some disc, oneOf, anyOf) =>
    walkDiscriminatorMapping t disc ++ walkUnionRefs t oneOf ++ walkUnionRefs t anyOf
  | _ => []

/-- The one-step document unwrap at the top of
`collectDiscriminatorMappingValues`: a DocumentNode with content is
replaced by its first child. -/
def unwrapDoc : YNode → YNode
  | .document (c :: _) => c
  | n => n

mutual

/-- The kind switch of `collectDiscriminatorMappingValues` (bundler.go),
applied after the document unwrap: sequences recurse into their items,
mappings recurse into their values and then contribute their discriminator
pins; scalar and document kinds fall through the switch default. -/
def collectSwitch (t : SearchTable) : YNode → List String
  | .sequence cs => collectSeqList t cs
  | .mapping cs => collectValsList t cs ++ discContribution t cs
  | .scalar _ => []
  | .document _ => []
termination_by n => sizeOf n

/-- Recursion of the sequence case: the full collector (document unwrap,
then switch) is re-entered on every item. -/
def collectSeqList (t : SearchTable) : List YNode → List String
  | [] => []
  | c :: rest =>
    (match c with
     | .document (d :: _) => collectSwitch t d
     | .document [] => collectSwitch t (.document [])
     | .scalar s => collectSwitch t (.scalar s)
     | .mapping cs => collectSwitch t (.mapping cs)
     | .sequence cs => collectSwitch t (.sequence cs)) ++ collectSeqList t rest
termination_by cs => sizeOf cs
decreasing_by all_goals (simp <;> omega)

/-- Recursion of the mapping case: the full collector (document unwrap,
then switch) is re-entered on every value of the mapping's pairs. -/
def collectValsList (t : SearchTable) : List YNode → List String
  | _ :: v :: rest =>
    (match v with
     | .document (d :: _) => collectSwitch t d
     | .document [] => collectSwitch t (.document [])
     | .scalar s => collectSwitch t (.scalar s)
     | .mapping cs => collectSwitch t (.mapping cs)
     | .sequence cs => collectSwitch t (.sequence cs)) ++ collectValsList t rest
  | _ => []
termination_by cs => sizeOf cs
decreasing_by all_goals (simp; omega)

end

/-- Model of `collectDiscriminatorMappingValues` (bundler.go): unwrap a document
node once, then run the kind switch. -/
def collectDiscriminatorMappingValues (t : SearchTable) (n : YNode) : List String :=
  collectSwitch t (unwrapDoc n)

/-! ## The inline bundler (`bundle` and its `compact` closure) -/

/-- Model of `strings.Split(s, "#/")` on the character list: greedy left-to-right
splitting around each occurrence of the two-character separator. -/
def splitSepChars : List Char → List (List Char)
  | [] => [[]]
  | '#' :: '/' :: rest => [] :: splitSepChars rest
  | c :: rest =>
    match splitSepChars rest with
    | [] => [[c]]
    | g :: gs => (c :: g) :: gs

/-- Model of `strings.Split(s, "#/")` as used by `compact` on full definitions. -/
def splitHashSlash (s : String) : List String :=
  (splitSepChars s.data).map (fun l => String.mk l)

/-- A sequenced reference site (`index.Reference` from
`GetRawReferencesSequenced`): its full definition URI, its `Definition`,
the heap id of its `$ref` mapping node, and its owning index's spec
absolute path (`sequenced.Index.GetSpecAbsolutePath()`). -/
structure SeqRef where
  fullDefinition : String
  definition : String
  nodeId : Nat
  indexPath : String
deriving DecidableEq, Repr

/-- A mapped reference produced by the resolver (`GetMappedReferences`)
or by `FindComponent`: the circular flag and the heap id of the target
node. -/
structure MappedRef where
  circular : Bool
  nodeId : Nat
deriving DecidableEq, Repr

/-- A spec index as consumed by the bundler: its absolute path, the
resolver's mapped-reference table, the ordered sequenced reference sites,
its `FindComponent` table (keyed by `Definition`), whether `GetLogger()`
is non-nil, plus the data the preserve-collection pass reads (root node
and `SearchIndexForReference` table). -/
structure SpecIndex where
  specAbsolutePath : String
  mapped : List (String × MappedRef)
  sequenced : List SeqRef
  findComp : List (String × MappedRef)
  hasLogger : Bool
  rootNode : YNode := .scalar ""
  searchTable : SearchTable := []

/-- The bundler's mutable state: the node heap and the warnings emitted so
far (`Warn` log calls). -/
structure BundleState where
  heap : Heap
  warnings : List String
deriving DecidableEq, Repr

/-- The root-pass remap loop of `compact` (issue 397): scan the indexes
for one whose path matches the file part; if the current mapped reference
exists and is not circular, replace it with that index's `FindComponent`
result when found, breaking out of the loop. -/
def findRootRemap (indexes : List SpecIndex) (pathPart defn : String)
    (mapped : Option MappedRef) : Option MappedRef :=
  match indexes with
  | [] => mapped
  | i :: rest =>
    if i.specAbsolutePath = pathPart then
      match mapped with
      | some m =>
        if m.circular = false then
          match List.lookup defn i.findComp with
          | some mr => some mr
          | none => findRootRemap rest pathPart defn mapped
        else findRootRemap rest pathPart defn mapped
      | none => findRootRemap rest pathPart defn mapped
    else findRootRemap rest pathPart defn mapped

/-- The mapped reference `compact` ends up using for a site: the
resolver's entry, possibly remapped through `findRootRemap` during the
root pass when the full definition splits as `file#/fragment`. -/
def effectiveMapped (root : Bool) (indexes : List SpecIndex) (idx : SpecIndex)
    (ref : SeqRef) : Option MappedRef :=
  let mapped0 := List.lookup ref.fullDefinition idx.mapped
  let refExp := splitHashSlash ref.fullDefinition
  if refExp.length = 2 ∧ root = true then
    findRootRemap indexes (refExp.headD "") ref.definition mapped0
  else mapped0

/-- The `continue` taken during the root pass for a site whose file part
is the owning index's own path or empty (a purely root-local reference). -/
def rootLocalSkip (root : Bool) (ref : SeqRef) : Bool :=
  let refExp := splitHashSlash ref.fullDefinition
  refExp.length = 2 && (refExp.headD "" == ref.indexPath || refExp.headD "" == "") && root

/-- One iteration of `compact`'s loop over the sequenced references of an
index: skip root-local sites during the root pass, skip preserve-set
(discriminator-pinned) sites, replace the site node's content with the
target node's content for a non-circular mapped reference, and warn (when
a logger is present) for a circular one. -/
def compactOne (root : Bool) (indexes : List SpecIndex) (preserve : List String)
    (idx : SpecIndex) (st : BundleState) (ref : SeqRef) : BundleState :=
  if rootLocalSkip root ref then st
  else if preserve.contains ref.fullDefinition then st
  else
    match effectiveMapped root indexes idx ref with
    | some m =>
      if m.circular = false then
        { st with heap := setNodeContent st.heap ref.nodeId (getNode st.heap m.nodeId).content }
      else if idx.hasLogger then { st with warnings := st.warnings ++ [ref.fullDefinition] }
      else st
    | none => st

/-- Model of `compact(idx, root)`: fold `compactOne` over the index's sequenced
references in insertion order. -/
def compactIndex (root : Bool) (indexes : List SpecIndex) (preserve : List String)
    (idx : SpecIndex) (st : BundleState) : BundleState :=
  idx.sequenced.foldl (compactOne root indexes preserve idx) st

/-- The v3 document model as the bundler sees it: a rolodex root index,
the external indexes, and the node heap the indexes' node ids point into. -/
structure BModel where
  heap : Heap
  rootIndex : SpecIndex
  indexes : List SpecIndex

/-- The preserve set built at the top of `bundle`: discriminator pins
collected from the root index's root node and from every external
index's root node. -/
def collectPreserve (m : BModel) : List String :=
  m.indexes.foldl
    (fun acc idx => acc ++ collectDiscriminatorMappingValues idx.searchTable idx.rootNode)
    (collectDiscriminatorMappingValues m.rootIndex.searchTable m.rootIndex.rootNode)

/-- Model of `bundle` (bundler.go): build the preserve set, compact every external
index with `root = false`, then compact the root index with `root = true`.
Rendering serializes the final heap; node content is what the claims are
about, so the final `BundleState` is the model's output. -/
def bundle (m : BModel) : BundleState :=
  let preserve := collectPreserve m
  let st1 := m.indexes.foldl
    (fun st idx => compactIndex false m.indexes preserve idx st)
    { heap := m.heap, warnings := [] }
  compactIndex true m.indexes preserve m.rootIndex st1

/-! ## The composing bundler (`compose` entry guards) -/

/-- Model of `strings.Contains(s, needle)` for a one-character needle, as used by
the delimiter checks: character membership in the string. -/
def containsChar (s : String) (c : Char) : Bool := s.data.contains c

/-- Model of `BundleCompositionConfig` (bundler.go). -/
structure BundleCompositionConfig where
  Delimiter : String := ""
deriving DecidableEq, Repr

/-- The delimiter validation at the top of `compose`: a nil config means
delimiter `__`; an empty delimiter defaults to `__`; a delimiter
containing `#` or `/` is rejected, then one containing a space is
rejected. -/
def composeDelimiterCheck : Option BundleCompositionConfig → Except String String
  | none => .ok "__"
  | some c =>
    let d := if c.Delimiter = "" then "__" else c.Delimiter
    if containsChar d '#' || containsChar d '/' then
      .error "composition delimiter cannot contain # or / characters"
    else if containsChar d ' ' then
      .error "composition delimiter cannot contain spaces"
    else .ok d

/-- The delimiter `compose` would use after defaulting, before the
forbidden-character checks. -/
def effectiveDelimiter : Option BundleCompositionConfig → String
  | none => "__"
  | some c => if c.Delimiter = "" then "__" else c.Delimiter

/-- The model argument of `compose`: a document whose `Rolodex` field may
be nil.  `R` abstracts the rolodex payload. -/
structure ComposeModel (R : Type) where
  rolodex : Option R

/-- The entry of `compose` (bundler.go): validate the delimiter, then
reject a nil model or nil rolodex, and only then run the remainder of the
composition (abstracted as the continuation `proceed`, which receives the
model, its rolodex and the validated delimiter). -/
def compose {R B : Type} (proceed : ComposeModel R → R → String → Except String B)
    (model : Option (ComposeModel R)) (cfg : Option BundleCompositionConfig) :
    Except String B :=
  match composeDelimiterCheck cfg with
  | .error e => .error e
  | .ok d =>
    match model with
    | none => .error "model or rolodex is nil"
    | some m =>
      match m.rolodex with
      | none => .error "model or rolodex is nil"
      | some r => proceed m r d

/-! ## BundleBytesComposed -/

/-- The error taxonomy visible at the `BundleBytesComposed` boundary:
the parse error from `NewDocumentWithConfiguration`, the joined
`ErrInvalidModel` case, or errors escaping `compose`. -/
inductive BundleErr (E : Type) where
  | parseFail (e : E)
  | invalidModel (errs : List E)
  | composeFail (e : E)
deriving DecidableEq, Repr

/-- Model of `BundleBytesComposed` (bundler.go): parse the bytes
(`NewDocumentWithConfiguration`), build the v3 model (`BuildV3Model`,
returning an optional model and a list of build errors), return an
invalid-model error when the model is nil or any build error occurred,
otherwise run `compose`, whose best-effort bytes and error are both
returned. -/
def BundleBytesComposed {D M E B : Type} (parse : Except E D)
    (buildV3 : D → Option M × List E) (composeFn : M → Option B × Option E) :
    Option B × Option (BundleErr E) :=
  match parse with
  | .error e => (none, some (.parseFail e))
  | .ok doc =>
    match buildV3 doc with
    | (none, errs) => (none, some (.invalidModel errs))
    | (some _, e :: es) => (none, some (.invalidModel (e :: es)))
    | (some m, []) =>
      match composeFn m with
      | (b, eo) => (b, eo.map .composeFail)

/-- Whether an outcome is the invalid-model error. -/
def isInvalidModel {E : Type} : Option (BundleErr E) → Bool
  | some (.invalidModel _) => true
  | _ => false

/-! ## SchemaProxy (datamodel/low/base/schema_proxy.go) -/

/-- The `SchemaProxy` struct: the value node and index handles set by
`Build`, the memoized rendered schema, and the stored build error.
`S` and `E` abstract the `Schema` and `error` types. -/
structure SchemaProxy (S E : Type) where
  vn : Nat
  idx : Nat
  rendered : Option S := none
  buildError : Option E := none
deriving DecidableEq, Repr

/-- Model of `SchemaProxy.Build`: record the root node and index; the rendered
schema and build error of a fresh proxy are nil. -/
def SchemaProxy.Build (S E : Type) (root idx : Nat) : SchemaProxy S E :=
  { vn := root, idx := idx }

/-- Model of `SchemaProxy.Schema`: return the pre-rendered schema if present;
otherwise build from the underlying node (the build step abstracted as
`bld`), storing the error and returning none on failure, or memoizing and
returning the schema on success.  The third component reports whether a
build was executed on this call. -/
def SchemaProxy.Schema {S E : Type} (bld : Nat → Nat → Except E S)
    (sp : SchemaProxy S E) : Option S × SchemaProxy S E × Bool :=
  match sp.rendered with
  | some s => (some s, sp, false)
  | none =>
    match bld sp.vn sp.idx with
    | .error e => (none, { sp with buildError := some e }, true)
    | .ok s => (some s, { sp with rendered := some s }, true)

/-- Model of `SchemaProxy.GetBuildError`. -/
def SchemaProxy.GetBuildError {S E : Type} (sp : SchemaProxy S E) : Option E :=
  sp.buildError

/-! ## File-source waiter coalescing

Modelled from the spec: the body of the local file source's
`OpenWithContext` and its waiter cell are not part of the sources (only
the test `Test_LocalFSWaiter` is), so the per-URI coalescing protocol of
spec sections 4.2 and 5 is embedded as a small-step scheduler: each caller
of `Open(uri)` checks the shared waiter cell; the first caller installs
the cell and becomes the fetcher, later callers wait on the cell; the
fetcher performs the single fetch and publishes the result; every caller
reads its result from the cell. -/

/-- The program counter of one `Open` caller. -/
inductive CallerPC (R : Type) where
  | start
  | fetching
  | waiting
  | done (r : R)
deriving DecidableEq, Repr

/-- The shared state for one URI: the waiter cell (absent, pending, or
completed with a result) and the number of fetches executed. -/
structure FSState (R : Type) where
  waiter : Option (Option R)
  fetches : Nat
deriving DecidableEq, Repr

/-- One atomic step of one caller: the mutex-guarded check-and-install of
the waiter cell, the fetch completion, or a read of the completed cell.
`r0` is the (deterministic) result of fetching the URI. -/
def stepCaller {R : Type} (r0 : R) (s : FSState R) (pc : CallerPC R) :
    FSState R × CallerPC R :=
  match pc, s.waiter with
  | .start, none => ({ s with waiter := some none }, .fetching)
  | .start, some none => (s, .waiting)
  | .start, some (some r) => (s, .done r)
  | .fetching, _ => ({ waiter := some (some r0), fetches := s.fetches + 1 }, .done r0)
  | .waiting, some (some r) => (s, .done r)
  | .waiting, _ => (s, .waiting)
  | .done r, _ => (s, .done r)

/-- Run the caller chosen by the scheduler for one step (an out-of-range
choice is a no-op). -/
def stepAt {R : Type} (r0 : R) (sp : FSState R × List (CallerPC R)) (k : Nat) :
    FSState R × List (CallerPC R) :=
  match sp.2.get? k with
  | none => sp
  | some pc =>
    match stepCaller r0 sp.1 pc with
    | (s2, pc2) => (s2, sp.2.set k pc2)

/-- Run a whole schedule (an arbitrary interleaving of caller steps). -/
def runSched {R : Type} (r0 : R) (sched : List Nat)
    (sp : FSState R × List (CallerPC R)) : FSState R × List (CallerPC R) :=
  sched.foldl (stepAt r0) sp

/-- The initial state of `n` concurrent callers of `Open(uri)` on a fresh file source. -/
def initOpen (R : Type) (n : Nat) : FSState R × List (CallerPC R) :=
  ({ waiter := none, fetches := 0 }, List.replicate n .start)

/-- Whether a caller currently holds the fetcher role. -/
def isFetching {R : Type} : CallerPC R → Bool
  | .fetching => true
  | _ => false

/-- How many callers currently hold the fetcher role. -/
def countFetching {R : Type} (pcs : List (CallerPC R)) : Nat :=
  pcs.countP (fun pc => isFetching pc)

/-- The results observed by the callers that have completed. -/
def resultsOf {R : Type} (pcs : List (CallerPC R)) : List R :=
  pcs.filterMap (fun pc => match pc with | .done r => some r | _ => none)

/-- The coalescing invariant of the waiter protocol: every completed
caller observed the fetch result; with no waiter installed nothing has
been fetched and nobody is fetching; with a pending waiter nothing has
been fetched yet and exactly one caller holds the fetcher role; with a
completed waiter the cell holds the fetch result, at most one fetch ran,
and nobody is fetching. -/
def WaiterInv {R : Type} (r0 : R) (sp : FSState R × List (CallerPC R)) : Prop :=
  (∀ r : R, CallerPC.done r ∈ sp.2 → r = r0) ∧
  (sp.1.waiter = none → sp.1.fetches = 0 ∧ countFetching sp.2 = 0) ∧
  (sp.1.waiter = some none → sp.1.fetches = 0 ∧ countFetching sp.2 = 1) ∧
  (∀ r : R, sp.1.waiter = some (some r) →
    r = r0 ∧ sp.1.fetches ≤ 1 ∧ countFetching sp.2 = 0)

/-! ## Structural predicates about discriminators (for stating claims) -/

/-- Whether a mapping's pair list carries a `discriminator` key. -/
def hasDiscKeyPairs (cs : List YNode) : Bool :=
  (pairsOf cs).any (fun kv => keyVal kv.1 == "discriminator")

/-- Whether a node is a mapping carrying a `mapping` key (the shape of a
discriminator node that has a mapping). -/
def hasMappingKey : YNode → Bool
  | .mapping ds => (pairsOf ds).any (fun kv => keyVal kv.1 == "mapping")
  | _ => false

/-- Whether a mapping's pair list carries a `discriminator` key whose
value itself has a `mapping` key. -/
def hasDiscMappingPairs (cs : List YNode) : Bool :=
  (pairsOf cs).any (fun kv => keyVal kv.1 == "discriminator" && hasMappingKey kv.2)

mutual

/-- Whether any mapping node of the tree carries a `discriminator` key. -/
def hasDiscNode : YNode → Bool
  | .mapping cs => hasDiscKeyPairs cs || hasDiscList cs
  | .sequence cs => hasDiscList cs
  | .document cs => hasDiscList cs
  | .scalar _ => false
termination_by n => sizeOf n

/-- List form of `hasDiscNode`. -/
def hasDiscList : List YNode → Bool
  | [] => false
  | c :: rest => hasDiscNode c || hasDiscList rest
termination_by cs => sizeOf cs
decreasing_by all_goals (simp <;> omega)

end

mutual

/-- Whether any mapping node of the tree carries a `discriminator` key
whose value has a `mapping` key (a discriminator with a mapping). -/
def hasDiscWithMappingNode : YNode → Bool
  | .mapping cs => hasDiscMappingPairs cs || hasDiscWithMappingList cs
  | .sequence cs => hasDiscWithMappingList cs
  | .document cs => hasDiscWithMappingList cs
  | .scalar _ => false
termination_by n => sizeOf n

/-- List form of `hasDiscWithMappingNode`. -/
def hasDiscWithMappingList : List YNode → Bool
  | [] => false
  | c :: rest => hasDiscWithMappingNode c || hasDiscWithMappingList rest
termination_by cs => sizeOf cs
decreasing_by all_goals (simp <;> omega)

end

/-! ## Concrete instances used by witnesses and counterexamples -/

/-- A schema node carrying a discriminator without any `mapping` key, next
to a `oneOf` holding one `$ref` item (the C4 counterexample shape). -/
def discNoMappingTree : YNode :=
  .mapping
    [.scalar "discriminator", .mapping [.scalar "propertyName", .scalar "petType"],
     .scalar "oneOf",
     .sequence [.mapping [.scalar "$ref", .scalar "#/components/schemas/Cat"]]]

/-- Search table resolving the `$ref` of `discNoMappingTree`. -/
def catTable : SearchTable :=
  [("#/components/schemas/Cat",
    { definition := "#/components/schemas/Cat", idxPath := "root.yaml" })]

/-- A discriminator node with a `mapping` pinning one external schema
(used by the C1 witness). -/
def dogRootNode : YNode :=
  .mapping
    [.scalar "discriminator",
     .mapping
       [.scalar "mapping",
        .mapping [.scalar "dog", .scalar "ext.yaml#/components/schemas/Dog"]]]

/-- Search table resolving the discriminator mapping value of
`dogRootNode`. -/
def dogTable : SearchTable :=
  [("ext.yaml#/components/schemas/Dog",
    { definition := "#/components/schemas/Dog", idxPath := "ext.yaml" })]

/-- The pinned reference site of the C1 witness model. -/
def dogSite : SeqRef :=
  { fullDefinition := "ext.yaml#/components/schemas/Dog"
    definition := "#/components/schemas/Dog"
    nodeId := 0
    indexPath := "ext2.yaml" }

/-- The external index of the C1 witness model: it holds the pinned site,
which resolves to the non-circular target node 2. -/
def pinnedIdx : SpecIndex :=
  { specAbsolutePath := "ext2.yaml"
    mapped := [("ext.yaml#/components/schemas/Dog", { circular := false, nodeId := 2 })]
    sequenced := [dogSite], findComp := [], hasLogger := true }

/-- C1 witness model: an external index holds a site whose full definition
is discriminator-pinned by the root document's discriminator mapping; the
site has a resolvable non-circular target, so only the preserve set keeps
it from being inlined. -/
def pinnedModel : BModel :=
  { heap :=
      [{ value := "site", content := [1] }, { value := "$ref", content := [] },
       { value := "target", content := [3] }, { value := "child", content := [] }]
    rootIndex :=
      { specAbsolutePath := "root.yaml", mapped := [], sequenced := [], findComp := []
        hasLogger := true, rootNode := dogRootNode, searchTable := dogTable }
    indexes := [pinnedIdx] }

/-- A four-node heap shared by the small bundler examples: node 0 is a
reference site (its child 1 is the `$ref` entry), node 2 is the target
with child list `[3]`. -/
def smallHeap : Heap :=
  [{ value := "site", content := [1] }, { value := "$ref", content := [] },
   { value := "target", content := [3] }, { value := "child", content := [] }]

/-- The reference site of the C2 counterexample. -/
def aliasRef : SeqRef :=
  { fullDefinition := "other.yaml#/components/schemas/T"
    definition := "#/components/schemas/T", nodeId := 0, indexPath := "ext.yaml" }

/-- The external index of the C2 counterexample: `aliasRef` resolves to
the non-circular target node 2. -/
def aliasIdx : SpecIndex :=
  { specAbsolutePath := "ext.yaml"
    mapped := [("other.yaml#/components/schemas/T", { circular := false, nodeId := 2 })]
    sequenced := [aliasRef], findComp := [], hasLogger := true }

/-- C2 counterexample model: one external index with a single
non-preserved, non-circular reference site at node 0 whose target is node
2 with child list `[3]`. -/
def aliasModel : BModel :=
  { heap := smallHeap
    rootIndex :=
      { specAbsolutePath := "root.yaml", mapped := [], sequenced := [], findComp := []
        hasLogger := true }
    indexes := [aliasIdx] }

/-- The circular reference site of the C3 counterexample. -/
def circRef : SeqRef :=
  { fullDefinition := "a.yaml#/components/schemas/A"
    definition := "#/components/schemas/A", nodeId := 0, indexPath := "ext3.yaml" }

/-- The external index of the C3 counterexample: `circRef` resolves to a
circular mapped reference and `GetLogger()` is nil. -/
def circIdx : SpecIndex :=
  { specAbsolutePath := "ext3.yaml"
    mapped := [("a.yaml#/components/schemas/A", { circular := true, nodeId := 2 })]
    sequenced := [circRef], findComp := [], hasLogger := false }

/-- C3 counterexample model: one external index whose only site resolves
to a circular mapped reference, and whose `GetLogger()` is nil. -/
def circularNoLoggerModel : BModel :=
  { heap := smallHeap
    rootIndex :=
      { specAbsolutePath := "root.yaml", mapped := [], sequenced := [], findComp := []
        hasLogger := true }
    indexes := [circIdx] }

/-- C7 witness model: a document with no reference sites anywhere. -/
def refFreeModel : BModel :=
  { heap := [{ value := "root", content := [] }]
    rootIndex :=
      { specAbsolutePath := "root.yaml", mapped := [], sequenced := [], findComp := []
        hasLogger := true }
    indexes := [] }

/-! ## Helper lemmas about the compact loop -/

theorem getNode_setNodeContent_ne (h : Heap) (i j : Nat) (c : List Nat) (hij : j ≠ i) :
    getNode (setNodeContent h j c) i = getNode h i := by
  simp [getNode, setNodeContent, List.getD_eq_getElem?_getD, List.getElem?_set_ne hij]

theorem compactOne_getNode_eq (root : Bool) (idxs : List SpecIndex) (preserve : List String)
    (idx : SpecIndex) (st : BundleState) (ref : SeqRef) (i : Nat)
    (h : ref.fullDefinition ∈ preserve ∨ ref.nodeId ≠ i) :
    getNode (compactOne root idxs preserve idx st ref).heap i = getNode st.heap i := by
  by_cases hskip : rootLocalSkip root ref = true
  · simp [compactOne, hskip]
  · by_cases hin : ref.fullDefinition ∈ preserve
    · simp [compactOne, hskip, hin]
    · have hne : ref.nodeId ≠ i := h.resolve_left hin
      cases hm : effectiveMapped root idxs idx ref with
      | none => simp [compactOne, hskip, hin, hm]
      | some m =>
        by_cases hcirc : m.circular = false
        · simp [compactOne, hskip, hin, hm, hcirc, getNode_setNodeContent_ne _ _ _ _ hne]
        · by_cases hlog : idx.hasLogger = true <;>
            simp [compactOne, hskip, hin, hm, hcirc, hlog]

theorem foldl_compactOne_getNode_eq (root : Bool) (idxs : List SpecIndex)
    (preserve : List String) (idx : SpecIndex) (i : Nat) :
    ∀ (refs : List SeqRef) (st : BundleState),
      (∀ r ∈ refs, r.fullDefinition ∈ preserve ∨ r.nodeId ≠ i) →
      getNode ((refs.foldl (compactOne root idxs preserve idx) st)).heap i =
        getNode st.heap i := by
  intro refs
  induction refs with
  | nil => intro st _; rfl
  | cons r rest ih =>
    intro st h
    simp only [List.foldl_cons]
    rw [ih _ (fun x hx => h x (by simp [hx]))]
    exact compactOne_getNode_eq root idxs preserve idx st r i (h r (by simp))

theorem compactIndex_getNode_eq (root : Bool) (idxs : List SpecIndex)
    (preserve : List String) (idx : SpecIndex) (st : BundleState) (i : Nat)
    (h : ∀ r ∈ idx.sequenced, r.fullDefinition ∈ preserve ∨ r.nodeId ≠ i) :
    getNode (compactIndex root idxs preserve idx st).heap i = getNode st.heap i :=
  foldl_compactOne_getNode_eq root idxs preserve idx i idx.sequenced st h

theorem foldl_compactIndex_getNode_eq (idxs : List SpecIndex) (preserve : List String)
    (i : Nat) :
    ∀ (l : List SpecIndex) (st : BundleState),
      (∀ idx ∈ l, ∀ r ∈ idx.sequenced, r.fullDefinition ∈ preserve ∨ r.nodeId ≠ i) →
      getNode ((l.foldl (fun st idx => compactIndex false idxs preserve idx st) st)).heap i =
        getNode st.heap i := by
  intro l
  induction l with
  | nil => intro st _; rfl
  | cons a rest ih =>
    intro st h
    simp only [List.foldl_cons]
    rw [ih _ (fun x hx => h x (by simp [hx]))]
    exact compactIndex_getNode_eq false idxs preserve a st i (h a (by simp))

/-! ## Claim theorems -/

/-- Claim C1: for every reference site whose absolute full-definition URI
is in the discriminator preserve set built by `bundle`, the inline bundler
leaves that site's mapping node unchanged in every index including the
root (so the `$ref` literal is retained in the rendered output).  The side
conditions say that no other reference site shares the site's node unless
it too is preserved, which holds of every parsed document (distinct sites
are distinct yaml nodes). -/
theorem preserved_site_unchanged (m : BModel) (site : SeqRef)
    (hsite : site ∈ m.rootIndex.sequenced ∨ ∃ idx ∈ m.indexes, site ∈ idx.sequenced)
    (hpres : site.fullDefinition ∈ collectPreserve m)
    (hroot : ∀ r ∈ m.rootIndex.sequenced, r.nodeId = site.nodeId →
      r.fullDefinition ∈ collectPreserve m)
    (hext : ∀ idx ∈ m.indexes, ∀ r ∈ idx.sequenced, r.nodeId = site.nodeId →
      r.fullDefinition ∈ collectPreserve m) :
    getNode (bundle m).heap site.nodeId = getNode m.heap site.nodeId := by
  simp only [bundle]
  rw [compactIndex_getNode_eq _ _ _ _ _ _ (fun r hr => by
    by_cases hn : r.nodeId = site.nodeId
    · exact Or.inl (hroot r hr hn)
    · exact Or.inr hn)]
  exact foldl_compactIndex_getNode_eq m.indexes (collectPreserve m) site.nodeId m.indexes
    { heap := m.heap, warnings := [] }
    (fun idx hidx r hr => by
      by_cases hn : r.nodeId = site.nodeId
      · exact Or.inl (hext idx hidx r hr hn)
      · exact Or.inr hn)

/-- Claim C7: for a document in which every index's sequenced-reference
list is empty, `bundle` performs no node mutation: the output heap equals
the input heap, so rendering yields the unmodified document. -/
theorem bundle_identity_when_ref_free (m : BModel)
    (hroot : m.rootIndex.sequenced = [])
    (hidx : ∀ idx ∈ m.indexes, idx.sequenced = []) :
    (bundle m).heap = m.heap := by
  have hfold : ∀ (preserve : List String) (l : List SpecIndex),
      (∀ idx ∈ l, idx.sequenced = []) → ∀ st : BundleState,
      l.foldl (fun st idx => compactIndex false m.indexes preserve idx st) st = st := by
    intro preserve l hl
    induction l with
    | nil => intro st; rfl
    | cons a rest ih =>
      intro st
      simp only [List.foldl_cons]
      rw [show compactIndex false m.indexes preserve a st = st from by
        simp [compactIndex, hl a (by simp)]]
      exact ih (fun x hx => hl x (by simp [hx])) st
  simp only [bundle]
  rw [hfold _ _ hidx, show ∀ st : BundleState,
    compactIndex true m.indexes (collectPreserve m) m.rootIndex st = st from by
      intro st; simp [compactIndex, hroot]]

/-- Claim C7 witness: bundling the concrete reference-free document is the
identity on its heap. -/
theorem bundle_identity_when_ref_free_witness :
    (bundle refFreeModel).heap = refFreeModel.heap :=
  bundle_identity_when_ref_free refFreeModel rfl (by simp [refFreeModel])

theorem collectPreserve_pinnedModel :
    collectPreserve pinnedModel = ["ext.yaml#/components/schemas/Dog"] := by
  simp [collectPreserve, collectDiscriminatorMappingValues, pinnedModel, pinnedIdx,
    dogRootNode, dogTable, unwrapDoc, collectSwitch, collectValsList, discContribution,
    findDOA, findDOAAux, pairsOf, keyVal, walkDiscriminatorMapping, walkUnionRefs,
    childrenOf, searchRef]

/-- Claim C1 witness: in the concrete pinned model, the discriminator-pinned
site at node 0 is untouched by `bundle`. -/
theorem preserved_site_unchanged_witness :
    getNode (bundle pinnedModel).heap 0 = getNode pinnedModel.heap 0 := by
  have h := preserved_site_unchanged pinnedModel dogSite
    (Or.inr ⟨pinnedIdx, by simp [pinnedModel], by simp [pinnedIdx]⟩)
    (by rw [collectPreserve_pinnedModel]; simp [dogSite])
    (by intro r hr hn; simp [pinnedModel] at hr)
    (by
      intro idx hidx r hr hn
      simp only [pinnedModel, List.mem_singleton] at hidx
      subst hidx
      simp only [pinnedIdx, List.mem_singleton] at hr
      subst hr
      rw [collectPreserve_pinnedModel]; simp [dogSite])
  exact h

/-- Claim C2 counterexample: in the concrete `aliasModel`, inlining the
single non-preserved non-circular site at node 0 makes the site's child
list the very same id list `[3]` as the target node's child list, and the
heap allocates no new nodes — the replacement shares the target's
children (a slice-header assignment), it is not a copy into fresh nodes
as the claim states. -/
theorem inline_copy_claim_counterexample :
    (bundle aliasModel).heap.length = aliasModel.heap.length ∧
    (getNode (bundle aliasModel).heap 0).content = (getNode aliasModel.heap 2).content ∧
    (getNode aliasModel.heap 2).content = [3] := by
  have hp : collectPreserve aliasModel = [] := by
    simp [collectPreserve, collectDiscriminatorMappingValues, aliasModel, aliasIdx,
      unwrapDoc, collectSwitch]
  refine ⟨?_, ?_, ?_⟩
  · simp only [bundle]; rw [hp]; decide
  · simp only [bundle]; rw [hp]; decide
  · decide

/-- Claim C2 (amended): for every non-preserved, non-skipped reference
site whose effective mapped reference exists and is not circular, one
step of the bundler's compact loop replaces the site node's content with
the target node's current child list itself — the same node ids, in the
same order, with no new nodes allocated (sharing, not a fresh copy) —
and emits no warning. -/
theorem inline_assigns_target_children (root : Bool) (idxs : List SpecIndex)
    (preserve : List String) (idx : SpecIndex) (st : BundleState) (ref : SeqRef)
    (m : MappedRef)
    (hskip : rootLocalSkip root ref = false)
    (hpres : ref.fullDefinition ∉ preserve)
    (hm : effectiveMapped root idxs idx ref = some m)
    (hcirc : m.circular = false)
    (hlen : ref.nodeId < st.heap.length) :
    (compactOne root idxs preserve idx st ref).heap.length = st.heap.length ∧
    getNode (compactOne root idxs preserve idx st ref).heap ref.nodeId =
      { getNode st.heap ref.nodeId with content := (getNode st.heap m.nodeId).content } ∧
    (compactOne root idxs preserve idx st ref).warnings = st.warnings := by
  refine ⟨?_, ?_, ?_⟩ <;>
    simp [compactOne, hskip, hpres, hm, hcirc, setNodeContent, getNode,
      List.getD_eq_getElem?_getD, List.getElem?_set_self, hlen]

/-- Claim C2 witness: the amended statement evaluated on the concrete
alias example. -/
theorem inline_assigns_target_children_witness :
    (compactOne false [] [] aliasIdx { heap := smallHeap, warnings := [] } aliasRef).heap.length = 4 ∧
    getNode (compactOne false [] [] aliasIdx { heap := smallHeap, warnings := [] } aliasRef).heap 0 =
      { value := "site", content := [3] } ∧
    (compactOne false [] [] aliasIdx { heap := smallHeap, warnings := [] } aliasRef).warnings = [] := by
  have h := inline_assigns_target_children false [] [] aliasIdx
    { heap := smallHeap, warnings := [] } aliasRef { circular := false, nodeId := 2 }
    (by simp [rootLocalSkip, aliasRef])
    (by simp)
    (by simp [effectiveMapped, aliasRef, aliasIdx])
    rfl
    (by simp [smallHeap, aliasRef])
  refine ⟨?_, ?_, ?_⟩
  · simpa [smallHeap] using h.1
  · have := h.2.1
    simpa [smallHeap, aliasRef, getNode] using this
  · exact h.2.2

/-- Claim C3 counterexample: in the concrete `circularNoLoggerModel` the
only site's mapped reference is circular and `bundle` keeps its `$ref`
(heap unchanged), but no warning is emitted because the index has no
logger — refuting the claim that a warning is emitted for every circular
site. -/
theorem circular_warning_claim_counterexample :
    (bundle circularNoLoggerModel).heap = circularNoLoggerModel.heap ∧
    (bundle circularNoLoggerModel).warnings = [] ∧
    List.lookup circRef.fullDefinition circIdx.mapped =
      some { circular := true, nodeId := 2 } := by
  have hp : collectPreserve circularNoLoggerModel = [] := by
    simp [collectPreserve, collectDiscriminatorMappingValues, circularNoLoggerModel,
      circIdx, unwrapDoc, collectSwitch]
  refine ⟨?_, ?_, ?_⟩
  · simp only [bundle]; rw [hp]; decide
  · simp only [bundle]; rw [hp]; decide
  · decide

/-- Claim C3 (amended): one compact step on a site whose effective mapped
reference is circular leaves the heap unchanged (the `$ref` is kept as
written), and appends a warning for the site exactly when the site is not
skipped as root-local, is not in the preserve set, and the owning index
has a logger. -/
theorem circular_ref_kept (root : Bool) (idxs : List SpecIndex) (preserve : List String)
    (idx : SpecIndex) (st : BundleState) (ref : SeqRef) (m : MappedRef)
    (hm : effectiveMapped root idxs idx ref = some m)
    (hcirc : m.circular = true) :
    (compactOne root idxs preserve idx st ref).heap = st.heap ∧
    (compactOne root idxs preserve idx st ref).warnings =
      st.warnings ++
        (if rootLocalSkip root ref = false ∧ ref.fullDefinition ∉ preserve ∧
            idx.hasLogger = true
         then [ref.fullDefinition] else []) := by
  by_cases hskip : rootLocalSkip root ref = true
  · simp [compactOne, hskip]
  · by_cases hin : ref.fullDefinition ∈ preserve
    · simp [compactOne, hskip, hin]
    · by_cases hlog : idx.hasLogger = true <;>
        simp [compactOne, hskip, hin, hlog, hm, hcirc]

/-- Claim C3 witness: the amended statement evaluated on the concrete
circular example (logger absent, so no warning is appended). -/
theorem circular_ref_kept_witness :
    (compactOne false [] [] circIdx { heap := smallHeap, warnings := [] } circRef).heap =
      smallHeap ∧
    (compactOne false [] [] circIdx { heap := smallHeap, warnings := [] } circRef).warnings =
      [] := by
  have h := circular_ref_kept false [] [] circIdx { heap := smallHeap, warnings := [] }
    circRef { circular := true, nodeId := 2 }
    (by simp [effectiveMapped, circRef, circIdx])
    rfl
  refine ⟨h.1, ?_⟩
  rw [h.2]
  simp [circIdx]

/-- Claim C4 counterexample: the concrete tree `discNoMappingTree` has a
discriminator without any `mapping` key, yet its oneOf `$ref` target is
still added to the preserve set — refuting the claim that only mapping
nodes with a discriminator mapping contribute. -/
theorem discriminator_pin_without_mapping_counterexample :
    hasDiscWithMappingNode discNoMappingTree = false ∧
    collectDiscriminatorMappingValues catTable discNoMappingTree =
      ["root.yaml#/components/schemas/Cat"] := by
  constructor
  · simp [discNoMappingTree, hasDiscWithMappingNode, hasDiscWithMappingList,
      hasDiscMappingPairs, pairsOf, keyVal, hasMappingKey]
  · simp [collectDiscriminatorMappingValues, discNoMappingTree, unwrapDoc, collectSwitch,
      collectValsList, collectSeqList, discContribution, findDOA, findDOAAux, pairsOf,
      keyVal, walkDiscriminatorMapping, walkUnionRefs, childrenOf, searchRef, catTable,
      isScalar]

theorem findDOAAux_fst_of_no_disc :
    ∀ (ps : List (YNode × YNode)) (acc : Option YNode × Option YNode × Option YNode),
      (∀ kv ∈ ps, keyVal kv.1 ≠ "discriminator") → (findDOAAux acc ps).1 = acc.1 := by
  intro ps
  induction ps with
  | nil => intro acc _; rfl
  | cons kv rest ih =>
    intro acc h
    have hk : keyVal kv.1 ≠ "discriminator" := h kv (by simp)
    simp only [findDOAAux]
    rw [ih _ (fun x hx => h x (by simp [hx]))]
    split <;> simp_all

theorem discContribution_nil_of_no_disc_key (t : SearchTable) (cs : List YNode)
    (h : hasDiscKeyPairs cs = false) : discContribution t cs = [] := by
  have h1 : (findDOA cs).1 = none := by
    unfold findDOA
    refine findDOAAux_fst_of_no_disc _ _ ?_
    intro kv hkv
    simp [hasDiscKeyPairs, List.any_eq_false] at h
    exact h kv.1 kv.2 hkv
  rcases hfd : findDOA cs with ⟨d, o, a⟩
  rw [hfd] at h1
  simp at h1
  subst h1
  simp [discContribution, hfd]

theorem collect_nil_aux (t : SearchTable) :
    ∀ k : Nat,
      (∀ n : YNode, sizeOf n ≤ k → hasDiscNode n = false → collectSwitch t n = []) ∧
      (∀ cs : List YNode, sizeOf cs ≤ k → hasDiscList cs = false →
        collectSeqList t cs = [] ∧ collectValsList t cs = []) := by
  intro k
  induction k with
  | zero =>
    constructor
    · intro n hle
      exfalso
      cases n <;> simp at hle
    · intro cs hle
      exfalso
      cases cs <;> simp at hle
  | succ k ih =>
    constructor
    · intro n hle hnd
      cases n with
      | scalar v => simp [collectSwitch]
      | document cs => simp [collectSwitch]
      | sequence cs =>
        have hl : hasDiscList cs = false := by simpa [hasDiscNode] using hnd
        have hsz : sizeOf cs ≤ k := by simp at hle; omega
        rw [show collectSwitch t (.sequence cs) = collectSeqList t cs from by
          simp [collectSwitch]]
        exact (ih.2 cs hsz hl).1
      | mapping cs =>
        have hnd2 : hasDiscKeyPairs cs = false ∧ hasDiscList cs = false := by
          simpa [hasDiscNode] using hnd
        have hsz : sizeOf cs ≤ k := by simp at hle; omega
        rw [show collectSwitch t (.mapping cs) =
            collectValsList t cs ++ discContribution t cs from by simp [collectSwitch]]
        rw [(ih.2 cs hsz hnd2.2).2, discContribution_nil_of_no_disc_key t cs hnd2.1]
        rfl
    · intro cs hle hdl
      cases cs with
      | nil => constructor <;> simp [collectSeqList, collectValsList]
      | cons c rest =>
        have h1 : hasDiscNode c = false ∧ hasDiscList rest = false := by
          simpa [hasDiscList] using hdl
        have hszc : sizeOf c ≤ k := by simp at hle; omega
        have hszr : sizeOf rest ≤ k := by simp at hle; omega
        have hrest := (ih.2 rest hszr h1.2).1
        constructor
        · rw [collectSeqList.eq_def]
          cases c with
          | scalar v => simp [hrest, collectSwitch]
          | mapping ms => simpa [hrest] using ih.1 (.mapping ms) hszc h1.1
          | sequence ss => simpa [hrest] using ih.1 (.sequence ss) hszc h1.1
          | document ds =>
            cases ds with
            | nil => simp [hrest, collectSwitch]
            | cons d dtail =>
              have hdd : hasDiscList (d :: dtail) = false := by
                simpa [hasDiscNode] using h1.1
              simp [hasDiscList] at hdd
              have hszd : sizeOf d ≤ k := by simp at hszc; omega
              simpa [hrest] using ih.1 d hszd hdd.1
        · rw [collectValsList.eq_def]
          cases rest with
          | nil => simp
          | cons v rest2 =>
            have h2 : hasDiscNode v = false ∧ hasDiscList rest2 = false := by
              simpa [hasDiscList] using h1.2
            have hszv : sizeOf v ≤ k := by simp at hszr; omega
            have hszr2 : sizeOf rest2 ≤ k := by simp at hszr; omega
            have hvrest := (ih.2 rest2 hszr2 h2.2).2
            cases v with
            | scalar w => simp [hvrest, collectSwitch]
            | mapping ms => simpa [hvrest] using ih.1 (.mapping ms) hszv h2.1
            | sequence ss => simpa [hvrest] using ih.1 (.sequence ss) hszv h2.1
            | document ds =>
              cases ds with
              | nil => simp [hvrest, collectSwitch]
              | cons d dtail =>
                have hdd : hasDiscList (d :: dtail) = false := by
                  simpa [hasDiscNode] using h2.1
                simp [hasDiscList] at hdd
                have hszd : sizeOf d ≤ k := by simp at hszv; omega
                simpa [hvrest] using ih.1 d hszd hdd.1

/-- A tree containing no mapping node with a `discriminator` key
contributes nothing to the preserve set. -/
theorem collect_nil_without_discriminator (t : SearchTable) (n : YNode)
    (h : hasDiscNode n = false) :
    collectDiscriminatorMappingValues t n = [] := by
  have hu : hasDiscNode (unwrapDoc n) = false := by
    cases n with
    | document cs =>
      cases cs with
      | nil => simpa [unwrapDoc] using h
      | cons c rest =>
        have hdl : hasDiscList (c :: rest) = false := by simpa [hasDiscNode] using h
        simp [hasDiscList] at hdl
        simpa [unwrapDoc] using hdl.1
    | scalar v => simpa [unwrapDoc] using h
    | mapping cs => simpa [unwrapDoc] using h
    | sequence cs => simpa [unwrapDoc] using h
  exact (collect_nil_aux t (sizeOf (unwrapDoc n))).1 (unwrapDoc n) le_rfl hu

/-- A discriminator-free mapping node contributes nothing to the
preserve set. -/
theorem collect_nil_without_discriminator_witness :
    collectDiscriminatorMappingValues catTable
      (.mapping [.scalar "type", .scalar "object"]) = [] :=
  collect_nil_without_discriminator catTable _
    (by simp [hasDiscNode, hasDiscList, hasDiscKeyPairs, pairsOf, keyVal])

theorem walkDiscriminatorMapping_nil_of_no_mapping_key (t : SearchTable) (disc : YNode)
    (h : hasMappingKey disc = false) : walkDiscriminatorMapping t disc = [] := by
  cases disc with
  | scalar v => rfl
  | sequence ds => rfl
  | document ds => rfl
  | mapping ds =>
    simp only [hasMappingKey, List.any_eq_false] at h
    simp only [walkDiscriminatorMapping]
    revert h
    generalize pairsOf ds = ps
    induction ps with
    | nil => intro _; rfl
    | cons kv rest ih =>
      intro h
      have hne : ¬(keyVal kv.1 = "mapping") := by
        intro hc
        have hk := h kv (by simp)
        simp [hc] at hk
      rw [List.foldr_cons, if_neg hne, List.nil_append]
      exact ih (fun x hx => h x (by simp [hx]))

/-- Claim C4 (amended): preserve-set additions happen exactly for mapping
nodes that have a discriminator.  First, a tree with no discriminator
anywhere contributes nothing.  Second, whenever a mapping node's pairs
carry a discriminator, every pinned URI produced from that discriminator's
mapping and from the node's oneOf/anyOf union refs is added to the
collected set — with no requirement that the discriminator have a
`mapping` key.  Third, a discriminator without a `mapping` key yields no
discriminator-mapping targets, so mapping targets are added only when the
discriminator has a mapping.  Fourth, a mapping node whose pairs carry no
discriminator makes no discriminator contribution of its own. -/
theorem collect_discriminator_pinning (t : SearchTable) :
    (∀ n : YNode, hasDiscNode n = false → collectDiscriminatorMappingValues t n = []) ∧
    (∀ (cs : List YNode) (disc : YNode), (findDOA cs).1 = some disc →
      ∀ u : String,
        (u ∈ walkDiscriminatorMapping t disc ∨ u ∈ walkUnionRefs t (findDOA cs).2.1 ∨
          u ∈ walkUnionRefs t (findDOA cs).2.2) →
        u ∈ collectDiscriminatorMappingValues t (.mapping cs)) ∧
    (∀ disc : YNode, hasMappingKey disc = false →
      walkDiscriminatorMapping t disc = []) ∧
    (∀ cs : List YNode, (findDOA cs).1 = none → discContribution t cs = []) := by
  refine ⟨collect_nil_without_discriminator t, ?_, ?_, ?_⟩
  · intro cs disc hfd u hu
    rcases hda : findDOA cs with ⟨d, o, a⟩
    rw [hda] at hfd hu
    dsimp only at hfd hu
    subst hfd
    have hdc : discContribution t cs =
        walkDiscriminatorMapping t disc ++ walkUnionRefs t o ++ walkUnionRefs t a := by
      simp [discContribution, hda]
    have hcol : collectDiscriminatorMappingValues t (.mapping cs) =
        collectValsList t cs ++ discContribution t cs := by
      simp [collectDiscriminatorMappingValues, unwrapDoc, collectSwitch]
    rw [hcol, hdc]
    simp only [List.mem_append]
    tauto
  · exact walkDiscriminatorMapping_nil_of_no_mapping_key t
  · intro cs h
    rcases hda : findDOA cs with ⟨d, o, a⟩
    rw [hda] at h
    dsimp only at h
    subst h
    simp [discContribution, hda]

/-- Claim C4 witness: on the concrete discriminator-without-mapping tree,
the oneOf `$ref` target is added to the preserve set by the second clause
of the pinning characterization. -/
theorem collect_discriminator_pinning_witness :
    "root.yaml#/components/schemas/Cat" ∈
      collectDiscriminatorMappingValues catTable discNoMappingTree :=
  (collect_discriminator_pinning catTable).2.1
    [.scalar "discriminator", .mapping [.scalar "propertyName", .scalar "petType"],
     .scalar "oneOf",
     .sequence [.mapping [.scalar "$ref", .scalar "#/components/schemas/Cat"]]]
    (.mapping [.scalar "propertyName", .scalar "petType"]) rfl
    "root.yaml#/components/schemas/Cat" (Or.inr (Or.inl (by decide)))

/-- The delimiter validation fails exactly when the effective delimiter
contains `#`, `/` or a space character. -/
theorem composeDelimiterCheck_error_iff (cfg : Option BundleCompositionConfig) :
    (∃ e, composeDelimiterCheck cfg = .error e) ↔
      (containsChar (effectiveDelimiter cfg) '#' = true ∨
       containsChar (effectiveDelimiter cfg) '/' = true ∨
       containsChar (effectiveDelimiter cfg) ' ' = true) := by
  cases cfg with
  | none =>
    constructor
    · rintro ⟨e, he⟩
      simp [composeDelimiterCheck] at he
    · intro h
      rcases h with h | h | h <;> exact absurd h (by decide)
  | some c =>
    simp only [composeDelimiterCheck, effectiveDelimiter]
    cases hA : containsChar (if c.Delimiter = "" then "__" else c.Delimiter) '#' <;>
      cases hB : containsChar (if c.Delimiter = "" then "__" else c.Delimiter) '/' <;>
        cases hC : containsChar (if c.Delimiter = "" then "__" else c.Delimiter) ' ' <;>
          simp [hA, hB, hC]

/-- Claim C5 counterexample: a delimiter consisting of a tab character is
whitespace, yet `compose` accepts it and proceeds — refuting the claim
that any whitespace character in the delimiter is rejected (the code only
checks for the space character). -/
theorem compose_whitespace_delimiter_counterexample :
    Char.isWhitespace '\t' = true ∧
    composeDelimiterCheck (some { Delimiter := "\t" }) = .ok "\t" ∧
    compose (fun _ _ d => Except.ok d) (some { rolodex := some (0 : Nat) })
      (some { Delimiter := "\t" }) = .ok "\t" :=
  ⟨by decide, rfl, rfl⟩

/-- Claim C5 (amended): if the effective delimiter contains `#`, `/` or a
space character, `compose` returns an error and no bundled bytes, for
every model and continuation; when the configuration is absent or its
delimiter is empty, the delimiter defaults to `__` and composition
proceeds (on a model with a rolodex). -/
theorem compose_delimiter_rules {R B : Type}
    (proceed : ComposeModel R → R → String → Except String B)
    (model : Option (ComposeModel R)) (cfg : Option BundleCompositionConfig) (r : R) :
    ((containsChar (effectiveDelimiter cfg) '#' = true ∨
      containsChar (effectiveDelimiter cfg) '/' = true ∨
      containsChar (effectiveDelimiter cfg) ' ' = true) →
      ∃ e, compose proceed model cfg = .error e) ∧
    ((cfg = none ∨ ∃ c, cfg = some c ∧ c.Delimiter = "") →
      compose proceed (some { rolodex := some r }) cfg =
        proceed { rolodex := some r } r "__") := by
  constructor
  · intro h
    obtain ⟨e, he⟩ := (composeDelimiterCheck_error_iff cfg).mpr h
    exact ⟨e, by simp [compose, he]⟩
  · intro h
    have hck : composeDelimiterCheck cfg = .ok "__" := by
      rcases h with h | ⟨c, hc, hd⟩
      · subst h; rfl
      · subst hc
        simp only [composeDelimiterCheck, hd]
        rfl
    simp [compose, hck]

/-- Claim C5 witness: a delimiter containing `#` is rejected, and an
absent configuration proceeds with delimiter `__`. -/
theorem compose_delimiter_rules_witness :
    (∃ e, compose (fun _ _ d => Except.ok d) (some { rolodex := some (0 : Nat) })
        (some { Delimiter := "a#" }) = .error e) ∧
    compose (fun _ _ d => Except.ok d) (some { rolodex := some (0 : Nat) })
      (none : Option BundleCompositionConfig) = Except.ok "__" := by
  have h := compose_delimiter_rules (fun _ _ d => Except.ok d)
    (some { rolodex := some (0 : Nat) }) (some { Delimiter := "a#" }) 0
  have h2 := compose_delimiter_rules (fun _ _ d => Except.ok d)
    (none : Option (ComposeModel Nat)) (none : Option BundleCompositionConfig) 0
  exact ⟨h.1 (Or.inl (by decide)), h2.2 (Or.inl rfl)⟩

/-- Claim C10: when the model is nil or its rolodex is nil, `compose`
returns an error and a nil byte slice, without running the rest of the
composition: the outcome is the same for every continuation, so nothing
is rendered or mutated. -/
theorem compose_nil_model_guard {R B : Type}
    (proceed proceed2 : ComposeModel R → R → String → Except String B)
    (model : Option (ComposeModel R)) (cfg : Option BundleCompositionConfig)
    (h : model = none ∨ ∃ m, model = some m ∧ m.rolodex = none) :
    (∃ e, compose proceed model cfg = .error e) ∧
    compose proceed model cfg = compose proceed2 model cfg := by
  rcases h with h | ⟨m, hm, hr⟩
  · subst h
    cases hc : composeDelimiterCheck cfg <;> simp [compose, hc]
  · subst hm
    cases hc : composeDelimiterCheck cfg <;> simp [compose, hc, hr]

/-- Claim C10 witness: a nil model errors identically under two different
continuations. -/
theorem compose_nil_model_guard_witness :
    (∃ e, compose (fun _ _ _ => Except.ok 1) (none : Option (ComposeModel Nat)) none =
      .error e) ∧
    compose (fun _ _ _ => Except.ok 1) (none : Option (ComposeModel Nat)) none =
      compose (fun _ _ _ => Except.ok 2) (none : Option (ComposeModel Nat)) none :=
  compose_nil_model_guard (fun _ _ _ => Except.ok 1) (fun _ _ _ => Except.ok 2)
    (none : Option (ComposeModel Nat)) (none : Option BundleCompositionConfig) (Or.inl rfl)

/-- Claim C6 counterexample: the input parses, the v3 build returns a
usable model, but one (non-fatal) build error makes `BundleBytesComposed`
return the invalid-model error with no bytes instead of proceeding to
composition — refuting the claim that invalid-model occurs exactly when
no usable document root was built. -/
theorem invalid_model_despite_usable_root_counterexample :
    BundleBytesComposed (Except.ok ()) (fun _ => ((some () : Option Unit), ["build warning"]))
      (fun _ => ((some [42] : Option (List Nat)), (none : Option String))) =
      (none, some (.invalidModel ["build warning"])) := rfl

/-- Claim C6 (amended): `BundleBytesComposed` returns the invalid-model
error, immediately and with no bytes, exactly when the bytes parsed into
a document but the v3 build produced no model or produced at least one
build error; a parse failure returns the parse error itself; composition
runs exactly when a model is built with zero build errors. -/
theorem bundleBytesComposed_invalid_model_iff {D M E B : Type} (parse : Except E D)
    (buildV3 : D → Option M × List E) (composeFn : M → Option B × Option E) :
    (isInvalidModel (BundleBytesComposed parse buildV3 composeFn).2 = true ↔
      ∃ d, parse = .ok d ∧ ((buildV3 d).1 = none ∨ (buildV3 d).2 ≠ [])) ∧
    (∀ e, parse = .error e →
      BundleBytesComposed parse buildV3 composeFn = (none, some (.parseFail e))) ∧
    (∀ d m, parse = .ok d → buildV3 d = (some m, []) →
      BundleBytesComposed parse buildV3 composeFn =
        ((composeFn m).1, (composeFn m).2.map .composeFail)) := by
  refine ⟨?_, ?_, ?_⟩
  · cases parse with
    | error e => simp [BundleBytesComposed, isInvalidModel]
    | ok d =>
      rcases hb : buildV3 d with ⟨v3, errs⟩
      cases v3 with
      | none => simp [BundleBytesComposed, hb, isInvalidModel]
      | some m =>
        cases errs with
        | nil =>
          rcases hc : composeFn m with ⟨b, eo⟩
          cases eo <;> simp [BundleBytesComposed, hb, hc, isInvalidModel]
        | cons e es => simp [BundleBytesComposed, hb, isInvalidModel]
  · intro e he
    subst he
    rfl
  · intro d m hd hb
    subst hd
    simp [BundleBytesComposed, hb]

/-- Claim C6 witness: with a model built and no build errors, the compose
outcome is returned. -/
theorem bundleBytesComposed_invalid_model_iff_witness :
    BundleBytesComposed (Except.ok ()) (fun _ => ((some () : Option Unit), ([] : List String)))
      (fun _ => ((some [7] : Option (List Nat)), (none : Option String))) =
      (some [7], none) :=
  (bundleBytesComposed_invalid_model_iff (Except.ok ())
    (fun _ => ((some () : Option Unit), ([] : List String)))
    (fun _ => ((some [7] : Option (List Nat)), (none : Option String)))).2.2 () () rfl rfl

/-- Claim C8: the schema proxy realizes its typed view lazily and
memoizes it.  A fresh proxy has no build error; a proxy whose schema is
already rendered returns it without rebuilding and without changing
state; a first successful build memoizes the schema, and the next call
returns the same schema without rebuilding; a failed build returns none,
stores the error, and `GetBuildError` retrieves it (it is nil before any
`Schema()` run and when no error occurred). -/
theorem schemaProxy_lazy_memoization {S E : Type} (bld : Nat → Nat → Except E S)
    (sp : SchemaProxy S E) (root idx : Nat) (s : S) (e : E) :
    (SchemaProxy.Build S E root idx).GetBuildError = none ∧
    (sp.rendered = some s → sp.Schema bld = (some s, sp, false)) ∧
    (sp.rendered = none → bld sp.vn sp.idx = .ok s →
      sp.Schema bld = (some s, { sp with rendered := some s }, true) ∧
      SchemaProxy.Schema bld { sp with rendered := some s } =
        (some s, { sp with rendered := some s }, false)) ∧
    (sp.rendered = none → bld sp.vn sp.idx = .error e →
      sp.Schema bld = (none, { sp with buildError := some e }, true) ∧
      SchemaProxy.GetBuildError { sp with buildError := some e } = some e) := by
  refine ⟨rfl, ?_, ?_, ?_⟩
  · intro h
    simp [SchemaProxy.Schema, h]
  · intro h hb
    constructor <;> simp [SchemaProxy.Schema, h, hb]
  · intro h hb
    constructor <;> simp [SchemaProxy.Schema, h, hb, SchemaProxy.GetBuildError]

/-- Claim C8 witness: the memoized path on a concrete proxy. -/
theorem schemaProxy_lazy_memoization_witness :
    SchemaProxy.Schema (fun _ _ => Except.ok 5)
      ({ vn := 0, idx := 0, rendered := some 5, buildError := none } : SchemaProxy Nat String) =
      (some 5, { vn := 0, idx := 0, rendered := some 5, buildError := none }, false) :=
  (schemaProxy_lazy_memoization (fun _ _ => Except.ok 5)
    { vn := 0, idx := 0, rendered := some 5, buildError := none } 0 0 5 "e").2.1 rfl

/-! ## The waiter coalescing law (C9) -/

theorem countP_set_balance {A : Type} (p : A → Bool) :
    ∀ (l : List A) (k : Nat) (x y : A), l.get? k = some y →
      (l.set k x).countP p + (if p y then 1 else 0) =
        l.countP p + (if p x then 1 else 0) := by
  intro l
  induction l with
  | nil => intro k x y h; simp at h
  | cons a rest ih =>
    intro k x y h
    cases k with
    | zero =>
      rw [List.get?_cons_zero] at h
      injection h with h
      cases h
      simp only [List.set_cons_zero, List.countP_cons]
      by_cases hx : p x <;> by_cases ha : p a <;> simp [hx, ha] <;> omega
    | succ k =>
      rw [List.get?_cons_succ] at h
      have hih := ih k x y h
      simp only [List.set_cons_succ, List.countP_cons]
      by_cases hx : p x <;> by_cases hy : p y <;> by_cases ha : p a <;>
        simp [hx, hy, ha] at hih ⊢ <;> omega

theorem countFetching_set_same {R : Type} (pcs : List (CallerPC R)) (k : Nat)
    (x y : CallerPC R) (hk : pcs.get? k = some y)
    (hxy : isFetching x = isFetching y) :
    countFetching (pcs.set k x) = countFetching pcs := by
  have h := countP_set_balance (fun pc => isFetching pc) pcs k x y hk
  by_cases hy : isFetching y = true
  · have hx : isFetching x = true := by rw [hxy, hy]
    simp [hx, hy, countFetching] at h ⊢
    omega
  · have hy2 : isFetching y = false := by simpa using hy
    have hx : isFetching x = false := by rw [hxy, hy2]
    simp [hx, hy2, countFetching] at h ⊢
    omega

theorem countFetching_set_incr {R : Type} (pcs : List (CallerPC R)) (k : Nat)
    (x y : CallerPC R) (hk : pcs.get? k = some y)
    (hy : isFetching y = false) (hx : isFetching x = true) :
    countFetching (pcs.set k x) = countFetching pcs + 1 := by
  have h := countP_set_balance (fun pc => isFetching pc) pcs k x y hk
  simp [hx, hy, countFetching] at h ⊢
  omega

theorem countFetching_set_decr {R : Type} (pcs : List (CallerPC R)) (k : Nat)
    (x y : CallerPC R) (hk : pcs.get? k = some y)
    (hy : isFetching y = true) (hx : isFetching x = false) :
    countFetching (pcs.set k x) + 1 = countFetching pcs := by
  have h := countP_set_balance (fun pc => isFetching pc) pcs k x y hk
  simp [hx, hy, countFetching] at h ⊢
  omega

theorem countFetching_pos_of_mem {R : Type} (pcs : List (CallerPC R))
    (h : CallerPC.fetching ∈ pcs) : 0 < countFetching pcs :=
  List.countP_pos_iff.mpr ⟨.fetching, h, rfl⟩

theorem dones_of_set {R : Type} (pcs : List (CallerPC R)) (k : Nat) (x : CallerPC R)
    (r0 : R) (hdones : ∀ r, CallerPC.done r ∈ pcs → r = r0)
    (hx : ∀ r, x = CallerPC.done r → r = r0) :
    ∀ r, CallerPC.done r ∈ pcs.set k x → r = r0 := by
  intro r hr
  rcases List.mem_or_eq_of_mem_set hr with h | h
  · exact hdones r h
  · exact hx r h.symm

theorem waiterInv_stepAt {R : Type} (r0 : R) (sp : FSState R × List (CallerPC R))
    (k : Nat) (h : WaiterInv r0 sp) : WaiterInv r0 (stepAt r0 sp k) := by
  obtain ⟨s, pcs⟩ := sp
  obtain ⟨hdones, hnone, hpend, hdone⟩ := h
  dsimp only at hdones hnone hpend hdone
  cases hk : pcs.get? k with
  | none =>
    have hstep : stepAt r0 (s, pcs) k = (s, pcs) := by
      simp only [stepAt]
      rw [hk]
    rw [hstep]
    exact ⟨hdones, hnone, hpend, hdone⟩
  | some pc =>
    have hmem : pc ∈ pcs := List.get?_mem hk
    have hstep : stepAt r0 (s, pcs) k =
        ((stepCaller r0 s pc).1, pcs.set k (stepCaller r0 s pc).2) := by
      simp only [stepAt]
      rw [hk]
    rw [hstep]
    cases pc with
    | start =>
      rcases hw : s.waiter with _ | w
      · have hsc : stepCaller r0 s .start = ({ s with waiter := some none }, .fetching) := by
          simp [stepCaller, hw]
        rw [hsc]
        dsimp only
        refine ⟨?_, ?_, ?_, ?_⟩
        · exact dones_of_set pcs k _ r0 hdones (fun r hx => by simp at hx)
        · intro hcontra; simp at hcontra
        · intro _
          refine ⟨(hnone hw).1, ?_⟩
          rw [countFetching_set_incr pcs k CallerPC.fetching CallerPC.start hk rfl rfl,
            (hnone hw).2]
        · intro r hcontra; simp at hcontra
      · cases w with
        | none =>
          have hsc : stepCaller r0 s .start = (s, .waiting) := by
            simp [stepCaller, hw]
          rw [hsc]
          dsimp only
          refine ⟨?_, ?_, ?_, ?_⟩
          · exact dones_of_set pcs k _ r0 hdones (fun r hx => by simp at hx)
          · intro hcontra; rw [hw] at hcontra; simp at hcontra
          · intro _
            exact ⟨(hpend hw).1, by
              rw [countFetching_set_same pcs k CallerPC.waiting CallerPC.start hk rfl]
              exact (hpend hw).2⟩
          · intro r hcontra; rw [hw] at hcontra; simp at hcontra
        | some r1 =>
          have hsc : stepCaller r0 s .start = (s, .done r1) := by
            simp [stepCaller, hw]
          rw [hsc]
          dsimp only
          refine ⟨?_, ?_, ?_, ?_⟩
          · refine dones_of_set pcs k _ r0 hdones ?_
            intro r hx
            cases hx
            exact (hdone r1 hw).1
          · intro hcontra; rw [hw] at hcontra; simp at hcontra
          · intro hcontra; rw [hw] at hcontra; simp at hcontra
          · intro r hr
            rw [hw] at hr
            injection hr with hr
            injection hr with hr
            cases hr
            refine ⟨(hdone r1 hw).1, (hdone r1 hw).2.1, ?_⟩
            rw [countFetching_set_same pcs k (CallerPC.done r1) CallerPC.start hk rfl]
            exact (hdone r1 hw).2.2
    | fetching =>
      have hpos := countFetching_pos_of_mem pcs hmem
      rcases hw : s.waiter with _ | w
      · exact absurd (hnone hw).2 (by omega)
      · cases w with
        | some r1 => exact absurd (hdone r1 hw).2.2 (by omega)
        | none =>
          have h1 := hpend hw
          have hsc : stepCaller r0 s .fetching =
              ({ waiter := some (some r0), fetches := s.fetches + 1 }, .done r0) := by
            simp [stepCaller, hw]
          rw [hsc]
          dsimp only
          refine ⟨?_, ?_, ?_, ?_⟩
          · refine dones_of_set pcs k _ r0 hdones ?_
            intro r hx
            cases hx
            rfl
          · intro hcontra; simp at hcontra
          · intro hcontra; simp at hcontra
          · intro r hr
            injection hr with hr
            injection hr with hr
            cases hr
            refine ⟨rfl, by dsimp only; omega, ?_⟩
            dsimp only
            have hdec := countFetching_set_decr pcs k (CallerPC.done r0)
              CallerPC.fetching hk rfl rfl
            omega
    | waiting =>
      rcases hw : s.waiter with _ | w
      · have hsc : stepCaller r0 s .waiting = (s, .waiting) := by
          simp [stepCaller, hw]
        rw [hsc]
        dsimp only
        refine ⟨?_, ?_, ?_, ?_⟩
        · exact dones_of_set pcs k _ r0 hdones (fun r hx => by simp at hx)
        · intro h2
          exact ⟨(hnone h2).1, by
            rw [countFetching_set_same pcs k CallerPC.waiting CallerPC.waiting hk rfl]
            exact (hnone h2).2⟩
        · intro hcontra; rw [hw] at hcontra; simp at hcontra
        · intro r hcontra; rw [hw] at hcontra; simp at hcontra
      · cases w with
        | none =>
          have hsc : stepCaller r0 s .waiting = (s, .waiting) := by
            simp [stepCaller, hw]
          rw [hsc]
          dsimp only
          refine ⟨?_, ?_, ?_, ?_⟩
          · exact dones_of_set pcs k _ r0 hdones (fun r hx => by simp at hx)
          · intro hcontra; rw [hw] at hcontra; simp at hcontra
          · intro h2
            exact ⟨(hpend h2).1, by
              rw [countFetching_set_same pcs k CallerPC.waiting CallerPC.waiting hk rfl]
              exact (hpend h2).2⟩
          · intro r hcontra; rw [hw] at hcontra; simp at hcontra
        | some r1 =>
          have hsc : stepCaller r0 s .waiting = (s, .done r1) := by
            simp [stepCaller, hw]
          rw [hsc]
          dsimp only
          refine ⟨?_, ?_, ?_, ?_⟩
          · refine dones_of_set pcs k _ r0 hdones ?_
            intro r hx
            cases hx
            exact (hdone r1 hw).1
          · intro hcontra; rw [hw] at hcontra; simp at hcontra
          · intro hcontra; rw [hw] at hcontra; simp at hcontra
          · intro r hr
            rw [hw] at hr
            injection hr with hr
            injection hr with hr
            cases hr
            refine ⟨(hdone r1 hw).1, (hdone r1 hw).2.1, ?_⟩
            rw [countFetching_set_same pcs k (CallerPC.done r1) CallerPC.waiting hk rfl]
            exact (hdone r1 hw).2.2
    | done rd =>
      have hsc : stepCaller r0 s (.done rd) = (s, .done rd) := by
        rcases hw : s.waiter with _ | ⟨_ | r1⟩ <;> simp [stepCaller, hw]
      rw [hsc]
      dsimp only
      refine ⟨?_, ?_, ?_, ?_⟩
      · refine dones_of_set pcs k _ r0 hdones ?_
        intro r hx
        cases hx
        exact hdones rd hmem
      · intro h2
        exact ⟨(hnone h2).1, by
          rw [countFetching_set_same pcs k (CallerPC.done rd) (CallerPC.done rd) hk rfl]
          exact (hnone h2).2⟩
      · intro h2
        exact ⟨(hpend h2).1, by
          rw [countFetching_set_same pcs k (CallerPC.done rd) (CallerPC.done rd) hk rfl]
          exact (hpend h2).2⟩
      · intro r h2
        refine ⟨(hdone r h2).1, (hdone r h2).2.1, ?_⟩
        rw [countFetching_set_same pcs k (CallerPC.done rd) (CallerPC.done rd) hk rfl]
        exact (hdone r h2).2.2

theorem countFetching_replicate_start {R : Type} (n : Nat) :
    countFetching (List.replicate n (CallerPC.start : CallerPC R)) = 0 := by
  induction n with
  | zero => rfl
  | succ n ih =>
    simp [List.replicate_succ, countFetching, List.countP_cons, isFetching] at ih ⊢

theorem waiterInv_init {R : Type} (r0 : R) (n : Nat) : WaiterInv r0 (initOpen R n) := by
  refine ⟨?_, ?_, ?_, ?_⟩
  · intro r hr
    exact absurd (List.eq_of_mem_replicate hr) (by simp)
  · intro _
    exact ⟨rfl, countFetching_replicate_start n⟩
  · intro h
    simp [initOpen] at h
  · intro r h
    simp [initOpen] at h

theorem waiterInv_runSched {R : Type} (r0 : R) (sched : List Nat)
    (sp : FSState R × List (CallerPC R)) (h : WaiterInv r0 sp) :
    WaiterInv r0 (runSched r0 sched sp) := by
  induction sched generalizing sp with
  | nil => exact h
  | cons k rest ih =>
    simp only [runSched, List.foldl_cons]
    exact ih (stepAt r0 sp k) (waiterInv_stepAt r0 sp k h)

/-- Claim C9 (modelled from the spec; the `Open` coalescing code is not in
the sources, only its test): for any number of concurrent `Open(uri)`
callers on one file source and any interleaving of their steps, the
underlying fetch executes at most once, and every caller that completes
observes the same fetch result. -/
theorem open_calls_coalesce {R : Type} (r0 : R) (n : Nat) (sched : List Nat) :
    (runSched r0 sched (initOpen R n)).1.fetches ≤ 1 ∧
    resultsOf (runSched r0 sched (initOpen R n)).2 =
      List.replicate (resultsOf (runSched r0 sched (initOpen R n)).2).length r0 := by
  have hinv := waiterInv_runSched r0 sched (initOpen R n) (waiterInv_init r0 n)
  rcases hrun : runSched r0 sched (initOpen R n) with ⟨s, pcs⟩
  rw [hrun] at hinv
  obtain ⟨hdones, hnone, hpend, hdone⟩ := hinv
  constructor
  · rcases hw : s.waiter with _ | w
    · have := (hnone hw).1; omega
    · cases w with
      | none => have := (hpend hw).1; omega
      | some r => exact (hdone r hw).2.1
  · refine List.eq_replicate_length.mpr ?_
    intro b hb
    simp only [resultsOf, List.mem_filterMap] at hb
    obtain ⟨pc, hpc, hmatch⟩ := hb
    cases pc <;> simp at hmatch
    subst hmatch
    exact hdones _ hpc

/-- Claim C9 witness: a concrete run with three callers in a concrete
interleaving performs exactly one fetch and all three observe the fetch
result. -/
theorem open_calls_coalesce_witness :
    (runSched 7 [0, 1, 2, 0, 1, 2] (initOpen Nat 3)).1.fetches ≤ 1 ∧
    resultsOf (runSched 7 [0, 1, 2, 0, 1, 2] (initOpen Nat 3)).2 =
      List.replicate (resultsOf (runSched 7 [0, 1, 2, 0, 1, 2] (initOpen Nat 3)).2).length 7 :=
  open_calls_coalesce 7 3 [0, 1, 2, 0, 1, 2]

end LibO
